import Mathlib

/-!
Shallow embedding of the notebook-to-text pipeline in `src/main.py`
(`mcp-notebook`): text normalization, output rendering, cell rendering,
block filters, and the `read_notebook` entry point.  Python strings are
modelled as Lean `String`s (with helper functions mirroring the Python
string methods used by the code), optional values as `Option`, and the
single raising code path (`int(...)` inside `filter_by_cell_index`) as
`Except String`.
-/

namespace MCPNotebook

/-- Whitespace characters stripped by Python `str.strip()` (ASCII subset). -/
def pyIsSpace (c : Char) : Bool :=
  c = ' ' || c = '\t' || c = '\n' || c = '\r' || c = '\x0b' || c = '\x0c'

/-- Python `str.lower()` on one character (ASCII case mapping). -/
def pyLowerChar (c : Char) : Char :=
  if 'A' ≤ c ∧ c ≤ 'Z' then Char.ofNat (c.toNat + 32) else c

/-- Python `str.lower()`. -/
def pyLower (s : String) : String :=
  (s.data.map pyLowerChar).asString

/-- Does the list begin with the given pattern (Python `str.startswith`)? -/
def startsWithL : List Char → List Char → Bool
  | [], _ => true
  | _ :: _, [] => false
  | a :: as, b :: bs => a = b && startsWithL as bs

/-- String version of `startsWithL`. -/
def strStartsWith (pre s : String) : Bool :=
  startsWithL pre.data s.data

/-- Substring containment (Python `needle in hay`). -/
def substrL (needle : List Char) : List Char → Bool
  | [] => needle.isEmpty
  | c :: t => startsWithL needle (c :: t) || substrL needle t

/-- Python `needle in hay` on strings. -/
def pyIn (needle hay : String) : Bool :=
  substrL needle.data hay.data

/-- Strip leading and trailing whitespace (Python `str.strip()`), on lists. -/
def stripL (l : List Char) : List Char :=
  ((l.dropWhile pyIsSpace).reverse.dropWhile pyIsSpace).reverse

/-- Python `str.strip()`. -/
def pyStrip (s : String) : String :=
  (stripL s.data).asString

/-- The prefix of `l` before the first occurrence of character `c`
(the whole list when `c` does not occur): `s.split(c, 1)[0]`. -/
def untilChar (c : Char) : List Char → List Char
  | [] => []
  | a :: t => if a = c then [] else a :: untilChar c t

/-- The suffix of `l` after the first occurrence of character `c`,
when it occurs: `s.split(c, 1)[1]`. -/
def afterChar (c : Char) : List Char → Option (List Char)
  | [] => Option.none
  | a :: t => if a = c then some t else afterChar c t

/-- The suffix after the first occurrence of the (nonempty) separator
`sep`, when it occurs. -/
def afterFirst (sep : List Char) : List Char → Option (List Char)
  | [] => Option.none
  | c :: t => if startsWithL sep (c :: t) then some ((c :: t).drop sep.length)
              else afterFirst sep t

/-- The prefix before the first occurrence of the (nonempty) separator
`sep` (the whole list when it does not occur). -/
def untilFirst (sep : List Char) : List Char → List Char
  | [] => []
  | c :: t => if startsWithL sep (c :: t) then [] else c :: untilFirst sep t

/-- Python `str.splitlines()`, modelled for newline-delimited text:
no entry is produced for a trailing newline, and `""` yields `[]`. -/
def pySplitlines : List Char → List (List Char)
  | [] => []
  | c :: t =>
    if c = '\n' then [] :: pySplitlines t
    else match pySplitlines t with
         | [] => [[c]]
         | x :: xs => (c :: x) :: xs

/-- `str.splitlines()` on strings. -/
def pySplitlinesStr (s : String) : List String :=
  (pySplitlines s.data).map List.asString

/-- The first line of a string: `s.split("\n", 1)[0]`. -/
def firstLine (s : String) : String :=
  (untilChar '\n' s.data).asString

/-- All characters are decimal digits. -/
def allDigits : List Char → Bool
  | [] => true
  | c :: t => c.isDigit && allDigits t

/-- Numeric value of a digit string. -/
def digitsToNat (l : List Char) : Nat :=
  l.foldl (fun a c => a * 10 + (c.toNat - 48)) 0

/-- A nonempty all-digit list parsed as a natural number, else failure. -/
def pyIntCore (l : List Char) : Option Int :=
  if l.isEmpty then Option.none
  else if allDigits l then some (Int.ofNat (digitsToNat l))
  else Option.none

/-- Python `int(str)` on decimal literals: optional surrounding whitespace,
optional sign, a nonempty digit run; anything else raises (here: `none`). -/
def pyInt (l : List Char) : Option Int :=
  match stripL l with
  | '+' :: t => pyIntCore t
  | '-' :: t => (pyIntCore t).map Neg.neg
  | l2 => pyIntCore l2

/-- A cell source / stream text payload: absent, one string, or a list of
string fragments (the shapes `normalize_text` accepts). -/
inductive SourceVal where
  | absent
  | str (s : String)
  | frags (l : List String)
deriving DecidableEq

/-- `normalize_text(x)`: `"".join(x)` when `x` is a list, else `x or ""`
(Python `or` maps a falsy value — absent or the empty string — to `""`). -/
def normalize_text : SourceVal → String
  | .frags l => String.join l
  | .str s => if s.isEmpty then "" else s
  | .absent => ""

/-- One notebook output record, tagged by its `output_type`; `other`
covers unrecognized output types (skipped by the renderer). -/
inductive Output where
  | stream (text : SourceVal)
  | execute_result (data : Option (List (String × String)))
  | display_data (data : Option (List (String × String)))
  | error (ename evalue : String) (traceback : List String)
  | other (otype : String)
deriving DecidableEq

/-- Assoc-list lookup for the `data` MIME mapping (`"text/plain" in data`,
`data["text/plain"]`). -/
def lookupMime (key : String) : List (String × String) → Option String
  | [] => Option.none
  | p :: t => if p.1 = key then some p.2 else lookupMime key t

/-- The line accumulation of `format_outputs`: the list of accumulated
lines and the `has_error` flag, processing records in order. -/
def outputsAcc : List Output → List String × Bool
  | [] => ([], false)
  | out :: rest =>
    let r := outputsAcc rest
    match out with
    | .stream t =>
      let s := pyStrip (normalize_text t)
      (if s.isEmpty then r.1 else s :: r.1, r.2)
    | .execute_result d =>
      (match lookupMime "text/plain" (d.getD []) with
       | some v => pyStrip v :: r.1
       | Option.none => r.1, r.2)
    | .display_data d =>
      (match lookupMime "text/plain" (d.getD []) with
       | some v => pyStrip v :: r.1
       | Option.none => r.1, r.2)
    | .error en ev tb => ("ERROR:" :: (en ++ ": " ++ ev) :: (tb ++ r.1), true)
    | .other _ => r

/-- `format_outputs(outputs)`: the newline-joined lines and the error flag. -/
def format_outputs (outputs : List Output) : String × Bool :=
  (String.intercalate "\n" (outputsAcc outputs).1, (outputsAcc outputs).2)

/-- One notebook cell; `execution_count` and `outputs` are only read on
code cells (markdown cells carry defaults). -/
structure Cell where
  cell_type : String
  source : SourceVal
  execution_count : Option Int := Option.none
  outputs : List Output := []
deriving DecidableEq

/-- Python `str(execution_count)` inside the f-string: `None` or a decimal. -/
def execCountStr : Option Int → String
  | Option.none => "None"
  | some n => toString n

/-- Python `str(bool)` inside the f-string: `True` / `False`. -/
def pyBoolStr (b : Bool) : String := if b then "True" else "False"

/-- `format_cell(cell, index)`: the rendered block for one cell, or `""`
for an unrecognized cell type. -/
def format_cell (cell : Cell) (index : Nat) : String :=
  let source := pyStrip (normalize_text cell.source)
  if cell.cell_type = "markdown" then
    "\n[CELL " ++ toString index ++ " | MARKDOWN]\n" ++ source ++ "\n"
  else if cell.cell_type = "code" then
    let fo := format_outputs cell.outputs
    "\n[CELL " ++ toString index ++ " | CODE]\n" ++
    "[EXECUTION_COUNT] " ++ execCountStr cell.execution_count ++ "\n" ++
    "[HAS_ERROR] " ++ pyBoolStr fo.2 ++ "\n\n" ++
    source ++ "\n\n" ++
    "[OUTPUT]\n" ++
    (if fo.1.isEmpty then "<NO OUTPUT>" else fo.1) ++ "\n"
  else ""

/-- `enumerate(nb.cells)` driving `format_cell`, starting at index `i`. -/
def enumFormat (i : Nat) : List Cell → List String
  | [] => []
  | c :: t => format_cell c i :: enumFormat (i + 1) t

/-- `notebook_to_llm_blocks` after `nbformat.read` has produced the cell
list: render every cell in order, keep blocks nonempty after stripping. -/
def notebook_to_llm_blocks (cells : List Cell) : List String :=
  (enumFormat 0 cells).filter (fun b => !(pyStrip b).isEmpty)

/-- The `keywords` argument of `filter_by_keyword`: one string or a list. -/
inductive KeywordArg where
  | one (s : String)
  | many (l : List String)

/-- The normalization `if isinstance(keywords, str): keywords = [keywords]`. -/
def keywordList : KeywordArg → List String
  | .one s => [s]
  | .many l => l

/-- `any(k.lower() in text for k in keywords)` with `text = block.lower()`. -/
def keywordMatch (keywords : List String) (block : String) : Bool :=
  keywords.any (fun k => pyIn (pyLower k) (pyLower block))

/-- `filter_by_keyword(blocks, keywords)`. -/
def filter_by_keyword (blocks : List String) (keywords : KeywordArg) : List String :=
  blocks.filter (keywordMatch (keywordList keywords))

/-- Does the block's first line start with `"[CELL"`? -/
def hdrStartsCell (block : String) : Bool :=
  strStartsWith "[CELL" (firstLine block)

/-- `header.split("[CELL")[1].split("|")[0].strip()`: the text between the
first `"[CELL"` marker and the following `"|"`, stripped. -/
def hdrIdxStr (block : String) : String :=
  match afterFirst "[CELL".data (firstLine block).data with
  | some rest => (stripL (untilChar '|' (untilFirst "[CELL".data rest))).asString
  | Option.none => ""

/-- `int(...)` applied to the extracted index text. -/
def hdrIdx (block : String) : Option Int :=
  pyInt (hdrIdxStr block).data

/-- The range test of `filter_by_cell_index`: not below `start` (when
given) and strictly below `end` (when given). -/
def keepIdx (s e : Option Int) (idx : Int) : Bool :=
  !(match s with | some a => decide (idx < a) | Option.none => false) &&
  !(match e with | some b => decide (idx ≥ b) | Option.none => false)

/-- The `ValueError` message of a failed `int(...)` call. -/
def intErrMsg (s : String) : String :=
  "invalid literal for int() with base 10: " ++ "\x27" ++ s ++ "\x27"

/-- `filter_by_cell_index(blocks, start, end)`: blocks whose first line
lacks the `"[CELL"` marker are skipped; a marker whose index text fails
`int(...)` raises (modelled as `Except.error`). -/
def filter_by_cell_index (blocks : List String) (s e : Option Int) :
    Except String (List String) :=
  match blocks with
  | [] => Except.ok []
  | b :: rest =>
    if hdrStartsCell b then
      match hdrIdx b with
      | Option.none => Except.error (intErrMsg (hdrIdxStr b))
      | some idx =>
        if keepIdx s e idx then
          (filter_by_cell_index rest s e).map (fun r => b :: r)
        else filter_by_cell_index rest s e
    else filter_by_cell_index rest s e

/-- `line.split("]", 1)[1].strip().lower() == "true"` (the `none` branch is
unreachable for lines starting with `"[HAS_ERROR]"`, which contain `]`). -/
def parseFlag (line : String) : Bool :=
  match afterChar '\x5d' line.data with
  | some rest => pyLower (stripL rest).asString = "true"
  | Option.none => false

/-- The first line of the block starting with `"[HAS_ERROR]"`, if any
(the loop in `filter_has_error` breaks at the first such line). -/
def firstTagLine : List String → Option String
  | [] => Option.none
  | l :: t => if strStartsWith "[HAS_ERROR]" l then some l else firstTagLine t

/-- The boolean parsed from the block's first `[HAS_ERROR]` line, if any. -/
def hasErrorValue (block : String) : Option Bool :=
  match firstTagLine (pySplitlinesStr block) with
  | some l => some (parseFlag l)
  | Option.none => Option.none

/-- `filter_has_error(blocks, has_error)`: keep a block when its first
`[HAS_ERROR]` line parses to the target. -/
def filter_has_error (blocks : List String) (target : Bool) : List String :=
  blocks.filter (fun b => hasErrorValue b = some target)

/-- The outcome of `nbformat.read(path, as_version=4)`: the parsed cell
list, or the raised exception's message (file missing, malformed, ...). -/
inductive LoadResult where
  | ok (cells : List Cell)
  | err (msg : String)

/-- The filtering pipeline of `read_notebook` after a successful load:
keyword filter when `keywords` is truthy (a nonempty list), index filter
when either bound is given, error filter when `only_errors` is not None. -/
def filteredBlocks (cells : List Cell) (keywords : Option (List String))
    (start_cell end_cell : Option Int) (only_errors : Option Bool) :
    Except String (List String) :=
  let b1 := notebook_to_llm_blocks cells
  let b2 := match keywords with
            | some (k :: ks) => filter_by_keyword b1 (.many (k :: ks))
            | _ => b1
  let s3 := if start_cell.isSome || end_cell.isSome
            then filter_by_cell_index b2 start_cell end_cell
            else Except.ok b2
  s3.map (fun b3 =>
    match only_errors with
    | some t => filter_has_error b3 t
    | Option.none => b3)

/-- `read_notebook(path, keywords, start_cell, end_cell, only_errors)`:
the `try` body over the load outcome, with every raise rendered as
`"Error reading notebook: " + str(e)` by the `except` clause. -/
def read_notebook (load : LoadResult) (keywords : Option (List String))
    (start_cell end_cell : Option Int) (only_errors : Option Bool) : String :=
  match load with
  | .err m => "Error reading notebook: " ++ m
  | .ok cells =>
    match filteredBlocks cells keywords start_cell end_cell only_errors with
    | Except.error m => "Error reading notebook: " ++ m
    | Except.ok [] => "No matching cells found with the specified filters."
    | Except.ok (b :: bs) => String.intercalate "\n" (b :: bs)

/-! ### Concrete cells and blocks used to evaluate the pipeline -/

/-- A markdown cell with source `"hello"`. -/
def mdCell : Cell := ⟨"markdown", .str "hello", Option.none, []⟩

/-- A code cell with source `"x"`, no execution count and no outputs. -/
def codeCell : Cell := ⟨"code", .str "x", Option.none, []⟩

/-- A code cell whose execution produced an error output. -/
def errCell : Cell :=
  ⟨"code", .str "1/0", some 1, [.error "ZeroDivisionError" "division by zero" ["tb1"]]⟩

/-- A code cell whose stream output contains the text `"RMSE"`. -/
def rmseCell : Cell :=
  ⟨"code", .str "eval_model()", some 5, [.stream (.str "RMSE: 0.123")]⟩

/-- A block in the spec's rendered-block grammar, with the `[CELL <i> | CODE]`
header on its first line. -/
def specBlock (i : Nat) : String :=
  "[CELL " ++ toString i ++
    " | CODE]\n[EXECUTION_COUNT] None\n[HAS_ERROR] False\n\nx\n\n[OUTPUT]\n<NO OUTPUT>\n"

/-- A block with two `[HAS_ERROR]` lines: the first parses to `False`, the
second to `True`. -/
def dupTagBlock : String :=
  "[HAS_ERROR] False" ++ "\n" ++ "[HAS_ERROR] True"

/-! ### General lemmas about the string helpers -/

lemma foldl_append_init (l : List String) (x : String) :
    l.foldl (fun a b => a ++ b) x = x ++ l.foldl (fun a b => a ++ b) "" := by
  induction l generalizing x with
  | nil => simp
  | cons a t ih =>
    simp only [List.foldl_cons]
    rw [ih (x ++ a), ih ("" ++ a), String.append_assoc]
    simp

lemma join_cons (a : String) (l : List String) :
    String.join (a :: l) = a ++ String.join l := by
  show (a :: l).foldl (fun a b => a ++ b) "" = a ++ l.foldl (fun a b => a ++ b) ""
  rw [List.foldl_cons, foldl_append_init]
  simp

lemma startsWithL_iff (n h : List Char) :
    startsWithL n h = true ↔ ∃ t, h = n ++ t := by
  induction n generalizing h with
  | nil => simp [startsWithL]
  | cons a as ih =>
    cases h with
    | nil => simp [startsWithL]
    | cons b bs =>
      simp only [startsWithL, Bool.and_eq_true, decide_eq_true_eq, ih,
        List.cons_append, List.cons.injEq]
      constructor
      · rintro ⟨rfl, t, rfl⟩
        exact ⟨t, rfl, rfl⟩
      · rintro ⟨t, rfl, rfl⟩
        exact ⟨rfl, t, rfl⟩

lemma substrL_iff (n h : List Char) :
    substrL n h = true ↔ ∃ pre post, h = pre ++ n ++ post := by
  induction h with
  | nil =>
    simp only [substrL, List.isEmpty_iff]
    constructor
    · rintro rfl
      exact ⟨[], [], rfl⟩
    · rintro ⟨pre, post, h⟩
      rcases List.append_eq_nil.mp h.symm with ⟨h1, h2⟩
      exact (List.append_eq_nil.mp h1).2
  | cons c t ih =>
    simp only [substrL, Bool.or_eq_true, startsWithL_iff, ih]
    constructor
    · rintro (⟨t2, ht⟩ | ⟨pre, post, rfl⟩)
      · exact ⟨[], t2, by simp [ht]⟩
      · exact ⟨c :: pre, post, rfl⟩
    · rintro ⟨pre, post, hp⟩
      cases pre with
      | nil => exact Or.inl ⟨post, by simpa using hp⟩
      | cons p ps =>
        rcases List.cons.injEq .. ▸ hp with ⟨rfl, h2⟩
        exact Or.inr ⟨ps, post, by simpa using h2⟩

lemma filter_idem (p : α → Bool) (l : List α) :
    (l.filter p).filter p = l.filter p := by
  induction l with
  | nil => rfl
  | cons a t ih =>
    by_cases h : p a = true
    · simp [List.filter_cons, h, ih]
    · simp [List.filter_cons, h, ih]

lemma firstLine_newline_append (s : String) : firstLine ("\n" ++ s) = "" := by
  have h : ("\n" ++ s).data = '\n' :: s.data := by
    rw [String.data_append]; rfl
  have h2 : untilChar '\n' ('\n' :: s.data) = [] := by simp [untilChar]
  rw [firstLine, h, h2]
  rfl

/-! ### Lemmas about the rendering pipeline -/

lemma firstLine_cell_marker (r : String) : firstLine ("\n[CELL " ++ r) = "" := by
  have h : ("\n[CELL " : String) = "\n" ++ "[CELL " := rfl
  rw [h, String.append_assoc]
  exact firstLine_newline_append _

lemma strStartsWith_nl (r : String) :
    strStartsWith "\n" ("\n[CELL " ++ r) = true := by
  have h2 : ("\n[CELL " : String) = "\n" ++ "[CELL " := rfl
  have h : ("\n[CELL " ++ r).data = '\n' :: ("[CELL " ++ r).data := by
    rw [h2, String.append_assoc, String.data_append]
    rfl
  simp [strStartsWith, h, startsWithL]

lemma keepIdx_iff (s e : Option Int) (i : Int) :
    keepIdx s e i = true ↔
      (∀ a, s = some a → a ≤ i) ∧ (∀ c, e = some c → i < c) := by
  cases s with
  | none => cases e with
    | none => simp [keepIdx]
    | some c => simp [keepIdx]
  | some a => cases e with
    | none => simp [keepIdx]
    | some c =>
      simp only [keepIdx, Bool.and_eq_true, Bool.not_eq_true', decide_eq_false_iff_not,
        Int.not_lt, ge_iff_le, Option.some.injEq]
      constructor
      · rintro ⟨h1, h2⟩
        exact ⟨fun a2 ha => ha ▸ h1, fun c2 hc => hc ▸ Int.not_le.mp h2⟩
      · rintro ⟨h1, h2⟩
        exact ⟨h1 a rfl, Int.not_le.mpr (h2 c rfl)⟩

lemma firstLine_format_cell (cell : Cell) (i : Nat) :
    firstLine (format_cell cell i) = "" := by
  by_cases h1 : cell.cell_type = "markdown"
  · simp only [format_cell, h1, if_pos, String.append_assoc]
    exact firstLine_cell_marker _
  · by_cases h2 : cell.cell_type = "code"
    · simp only [format_cell, h1, h2, if_false, if_pos, if_true, String.append_assoc]
      exact firstLine_cell_marker _
    · simp only [format_cell, h1, h2, if_false]
      rfl

lemma hdrStartsCell_format_cell (cell : Cell) (i : Nat) :
    hdrStartsCell (format_cell cell i) = false := by
  rw [hdrStartsCell, firstLine_format_cell]
  rfl

lemma mem_enumFormat {b : String} {cells : List Cell} {i : Nat}
    (h : b ∈ enumFormat i cells) : ∃ c j, b = format_cell c j := by
  induction cells generalizing i with
  | nil => simp [enumFormat] at h
  | cons c t ih =>
    simp only [enumFormat, List.mem_cons] at h
    rcases h with rfl | h
    · exact ⟨c, i, rfl⟩
    · exact ih h

lemma mem_notebook_blocks {b : String} {cells : List Cell}
    (h : b ∈ notebook_to_llm_blocks cells) : ∃ c j, b = format_cell c j :=
  mem_enumFormat (List.mem_filter.mp h).1

lemma fbci_all_skip {blocks : List String} (s e : Option Int)
    (h : ∀ b ∈ blocks, hdrStartsCell b = false) :
    filter_by_cell_index blocks s e = Except.ok [] := by
  induction blocks with
  | nil => rfl
  | cons b t ih =>
    have hb := h b (by simp)
    simp only [filter_by_cell_index, hb, Bool.false_eq_true, if_false]
    exact ih (fun x hx => h x (List.mem_cons_of_mem _ hx))

lemma fbci_ok_iff (blocks : List String) (s e : Option Int) :
    ∀ res, filter_by_cell_index blocks s e = Except.ok res →
    ∀ b, (b ∈ res ↔ b ∈ blocks ∧ hdrStartsCell b = true ∧
      ∃ i, hdrIdx b = some i ∧ keepIdx s e i = true) := by
  induction blocks with
  | nil =>
    intro res h b
    simp only [filter_by_cell_index, Except.ok.injEq] at h
    subst h
    simp
  | cons b0 t ih =>
    intro res h b
    by_cases h0 : hdrStartsCell b0 = true
    · rcases hidx : hdrIdx b0 with _ | i
      · simp only [filter_by_cell_index, h0, hidx, if_true] at h
        exact absurd h (by simp)
      · by_cases hk : keepIdx s e i = true
        · simp only [filter_by_cell_index, h0, hidx, hk, if_true] at h
          rcases ht : filter_by_cell_index t s e with m | r
          · rw [ht] at h
            simp [Except.map] at h
          · rw [ht] at h
            simp only [Except.map, Except.ok.injEq] at h
            subst h
            have hr := ih r ht b
            simp only [List.mem_cons]
            constructor
            · rintro (rfl | hb)
              · exact ⟨Or.inl rfl, h0, i, hidx, hk⟩
              · rcases hr.mp hb with ⟨hm, hc⟩
                exact ⟨Or.inr hm, hc⟩
            · rintro ⟨rfl | hm, hc⟩
              · exact Or.inl rfl
              · exact Or.inr (hr.mpr ⟨hm, hc⟩)
        · simp only [filter_by_cell_index, h0, hidx, hk, if_false] at h
          have hr := ih res h b
          rw [hr]
          simp only [List.mem_cons]
          constructor

          · rintro ⟨hm, hc⟩
            exact ⟨Or.inr hm, hc⟩
          · rintro ⟨rfl | hm, hc⟩
            · rcases hc with ⟨_, i2, hidx2, hk2⟩
              rw [hidx] at hidx2
              cases hidx2
              exact absurd hk2 hk
            · exact ⟨hm, hc⟩
    · have h0f : hdrStartsCell b0 = false := by
        cases hv : hdrStartsCell b0
        · rfl
        · exact absurd hv h0
      simp only [filter_by_cell_index, h0f, Bool.false_eq_true, if_false] at h
      have hr := ih res h b
      rw [hr]
      simp only [List.mem_cons]
      constructor
      · rintro ⟨hm, hc⟩
        exact ⟨Or.inr hm, hc⟩
      · rintro ⟨rfl | hm, hc⟩
        · exact absurd hc.1 h0
        · exact ⟨hm, hc⟩

lemma fbci_ok_sublist (blocks : List String) (s e : Option Int) :
    ∀ res, filter_by_cell_index blocks s e = Except.ok res →
    List.Sublist res blocks := by
  induction blocks with
  | nil =>
    intro res h
    simp only [filter_by_cell_index, Except.ok.injEq] at h
    subst h
    exact List.Sublist.refl []
  | cons b0 t ih =>
    intro res h
    by_cases h0 : hdrStartsCell b0 = true
    · rcases hidx : hdrIdx b0 with _ | i
      · simp only [filter_by_cell_index, h0, hidx, if_true] at h
        exact absurd h (by simp)
      · by_cases hk : keepIdx s e i = true
        · simp only [filter_by_cell_index, h0, hidx, hk, if_true] at h
          rcases ht : filter_by_cell_index t s e with m | r
          · rw [ht] at h
            simp [Except.map] at h
          · rw [ht] at h
            simp only [Except.map, Except.ok.injEq] at h
            subst h
            exact List.Sublist.cons₂ b0 (ih r ht)
        · simp only [filter_by_cell_index, h0, hidx, hk, if_false] at h
          exact List.Sublist.cons b0 (ih res h)
    · have h0f : hdrStartsCell b0 = false := by
        cases hv : hdrStartsCell b0
        · rfl
        · exact absurd hv h0
      simp only [filter_by_cell_index, h0f, Bool.false_eq_true, if_false] at h
      exact List.Sublist.cons b0 (ih res h)

lemma fbci_all_kept (blocks : List String) (s e : Option Int)
    (h : ∀ b ∈ blocks, hdrStartsCell b = true ∧
      ∃ i, hdrIdx b = some i ∧ keepIdx s e i = true) :
    filter_by_cell_index blocks s e = Except.ok blocks := by
  induction blocks with
  | nil => rfl
  | cons b0 t ih =>
    rcases h b0 (by simp) with ⟨h0, i, hidx, hk⟩
    simp only [filter_by_cell_index, h0, hidx, hk, if_true]
    rw [ih (fun x hx => h x (List.mem_cons_of_mem _ hx))]
    rfl

lemma mem_filter_has_error (blocks : List String) (t : Bool) (b : String) :
    b ∈ filter_has_error blocks t ↔ b ∈ blocks ∧ hasErrorValue b = some t := by
  simp [filter_has_error, List.mem_filter]

lemma mem_filter_by_keyword (blocks : List String) (kw : KeywordArg) (b : String) :
    b ∈ filter_by_keyword blocks kw ↔
      b ∈ blocks ∧ keywordMatch (keywordList kw) b = true := by
  simp [filter_by_keyword, List.mem_filter]

/-! ### Claim theorems -/

/-- Claim C1: `read_notebook` never propagates an exception to its caller:
its result is always exactly one of (a) `"Error reading notebook: "` followed
by the failure's message, (b) the literal empty-result sentinel string, or
(c) the newline-join of the complete (never partial) filtered block list,
which is then nonempty. -/
theorem read_notebook_three_forms (load : LoadResult) (kw : Option (List String))
    (s e : Option Int) (oe : Option Bool) :
    (∃ m, read_notebook load kw s e oe = "Error reading notebook: " ++ m) ∨
    read_notebook load kw s e oe =
      "No matching cells found with the specified filters." ∨
    (∃ bs, bs ≠ [] ∧ read_notebook load kw s e oe = String.intercalate "\n" bs ∧
      ∃ cells, load = LoadResult.ok cells ∧
        filteredBlocks cells kw s e oe = Except.ok bs) := by
  cases load with
  | err m => exact Or.inl ⟨m, rfl⟩
  | ok cells =>
    rcases hf : filteredBlocks cells kw s e oe with m | bs
    · exact Or.inl ⟨m, by simp [read_notebook, hf]⟩
    · cases bs with
      | nil => exact Or.inr (Or.inl (by simp [read_notebook, hf]))
      | cons b rest =>
        refine Or.inr (Or.inr ⟨b :: rest, by simp, ?_, cells, rfl, hf⟩)
        simp [read_notebook, hf]

/-- Claim C2 (code bug evidence): the block `format_cell` renders for the
markdown cell `mdCell` at index 0 starts with a newline, so its first line is
`""`, not the header `[CELL 0 | MARKDOWN]`; for the code cell `codeCell` at
index 1 the header sits on line 2, `[EXECUTION_COUNT]` on line 3 and
`[HAS_ERROR]` on line 4, one line later than the claim states. -/
theorem format_cell_header_not_on_first_line :
    format_cell mdCell 0 = "\n[CELL 0 | MARKDOWN]\nhello\n" ∧
    firstLine (format_cell mdCell 0) = "" ∧
    pySplitlinesStr (format_cell codeCell 1) =
      ["", "[CELL 1 | CODE]", "[EXECUTION_COUNT] None", "[HAS_ERROR] False", "",
       "x", "", "[OUTPUT]", "<NO OUTPUT>"] := by
  refine ⟨by rfl, by rfl, by rfl⟩

/-- Claim C3: `filter_by_cell_index` keeps a block iff the integer parsed
from its `[CELL` header is at least `start` (when given) and strictly below
`end` (when given); on the spec-grammar blocks for indices 0..9, filtering
with start 2 and end 5 returns exactly the blocks for indices 2, 3, 4. -/
theorem filter_by_cell_index_half_open :
    (∀ blocks s e res, filter_by_cell_index blocks s e = Except.ok res →
      ∀ b, (b ∈ res ↔ b ∈ blocks ∧ hdrStartsCell b = true ∧
        ∃ i, hdrIdx b = some i ∧
          (∀ a, s = some a → a ≤ i) ∧ (∀ c, e = some c → i < c))) ∧
    filter_by_cell_index ((List.range 10).map specBlock) (some 2) (some 5) =
      Except.ok [specBlock 2, specBlock 3, specBlock 4] := by
  constructor
  · intro blocks s e res h b
    rw [fbci_ok_iff blocks s e res h b]
    simp only [keepIdx_iff]
  · rfl

/-- Witness for claim C3: the characterization applied to a concrete
successful filtering run. -/
theorem filter_by_cell_index_half_open_witness :
    specBlock 2 ∈ [specBlock 2, specBlock 3, specBlock 4] ↔
      specBlock 2 ∈ (List.range 10).map specBlock ∧
      hdrStartsCell (specBlock 2) = true ∧
      ∃ i, hdrIdx (specBlock 2) = some i ∧
        (∀ a, (some 2 : Option Int) = some a → a ≤ i) ∧
        (∀ c, (some 5 : Option Int) = some c → i < c) :=
  filter_by_cell_index_half_open.1 ((List.range 10).map specBlock)
    (some 2) (some 5) [specBlock 2, specBlock 3, specBlock 4] (by rfl)
    (specBlock 2)

/-- Claim C4 counterexample: `dupTagBlock` contains a line beginning with
`[HAS_ERROR]` whose parsed boolean equals the target `true` (its second such
line), yet `filter_has_error` drops it, because the scan stops at the first
`[HAS_ERROR]` line, which parses to `false`. -/
theorem filter_has_error_not_existential :
    filter_has_error [dupTagBlock] true = [] ∧
    (pySplitlinesStr dupTagBlock).any
      (fun l => strStartsWith "[HAS_ERROR]" l && parseFlag l) = true := by
  refine ⟨by rfl, by rfl⟩

/-- Claim C4 (amended): `filter_has_error` keeps a block iff the FIRST line
beginning with `[HAS_ERROR]` exists and its boolean (parsed case-insensitively
after the first `]`) equals the target; a block with no such line — e.g. a
rendered markdown block — is never kept, for either target. -/
theorem filter_has_error_first_tag :
    (∀ blocks t b, b ∈ filter_has_error blocks t ↔
      b ∈ blocks ∧ hasErrorValue b = some t) ∧
    filter_has_error [format_cell mdCell 0, format_cell errCell 1] true =
      [format_cell errCell 1] ∧
    filter_has_error [format_cell mdCell 0, format_cell errCell 1] false = [] := by
  refine ⟨mem_filter_has_error, by rfl, by rfl⟩

/-- Claim C5: `filter_by_keyword` (given one keyword or a list) keeps a block
iff some keyword occurs as a case-insensitive substring anywhere in the
block's text; a rendered block carrying `"RMSE"` in its output is retained
when filtering for `"rmse"`. -/
theorem filter_by_keyword_substring :
    (∀ blocks kw b, b ∈ filter_by_keyword blocks kw ↔
      b ∈ blocks ∧ ∃ k ∈ keywordList kw, ∃ pre post,
        (pyLower b).data = pre ++ (pyLower k).data ++ post) ∧
    filter_by_keyword [format_cell rmseCell 0] (KeywordArg.one "rmse") =
      [format_cell rmseCell 0] := by
  constructor
  · intro blocks kw b
    rw [mem_filter_by_keyword]
    refine and_congr_right (fun _ => ?_)
    simp only [keywordMatch, List.any_eq_true, pyIn, substrL_iff]
  · rfl

/-- Claim C6: an error output record contributes a literal `ERROR:` line,
then `<ename>: <evalue>`, then every traceback line verbatim in order; on
the single record with ename `ValueError`, evalue `bad` and traceback
`["line1", "line2"]` the result is `"ERROR:\nValueError: bad\nline1\nline2"`
with `has_error = true`. -/
theorem format_outputs_error_record :
    (∀ en ev tb rest, outputsAcc (Output.error en ev tb :: rest) =
      ("ERROR:" :: (en ++ ": " ++ ev) :: (tb ++ (outputsAcc rest).1), true)) ∧
    (∀ en ev tb, format_outputs [Output.error en ev tb] =
      (String.intercalate "\n" ("ERROR:" :: (en ++ ": " ++ ev) :: tb), true)) ∧
    format_outputs [Output.error "ValueError" "bad" ["line1", "line2"]] =
      ("ERROR:\nValueError: bad\nline1\nline2", true) := by
  refine ⟨fun en ev tb rest => rfl, fun en ev tb => ?_, by rfl⟩
  simp [format_outputs, outputsAcc]

/-- Claim C7: `normalize_text` is total over its domain and returns `""` for
an absent value, the string itself for a string, and the in-order,
separator-free concatenation of all fragments for a sequence; in particular
`["a", "b", "c"]` normalizes to `"abc"`. -/
theorem normalize_text_spec :
    normalize_text SourceVal.absent = "" ∧
    (∀ s, normalize_text (SourceVal.str s) = s) ∧
    normalize_text (SourceVal.frags []) = "" ∧
    (∀ a l, normalize_text (SourceVal.frags (a :: l)) =
      a ++ normalize_text (SourceVal.frags l)) ∧
    normalize_text (SourceVal.frags ["a", "b", "c"]) = "abc" := by
  refine ⟨rfl, fun s => ?_, rfl, fun a l => join_cons a l, by rfl⟩
  by_cases h : s.isEmpty = true
  · simp only [normalize_text, h, if_true]
    exact ((String.isEmpty_iff s).mp h).symm
  · simp [normalize_text, h]

/-- Claim C8: each of the three filters returns a subsequence of its input:
relative order is preserved and no block is duplicated (for the index filter,
whenever the call returns rather than raising). -/
theorem filters_sublist :
    (∀ blocks kw, List.Sublist (filter_by_keyword blocks kw) blocks) ∧
    (∀ blocks s e res, filter_by_cell_index blocks s e = Except.ok res →
      List.Sublist res blocks) ∧
    (∀ blocks t, List.Sublist (filter_has_error blocks t) blocks) :=
  ⟨fun blocks _ => List.filter_sublist blocks,
   fun blocks s e res h => fbci_ok_sublist blocks s e res h,
   fun blocks _ => List.filter_sublist blocks⟩

/-- Witness for claim C8: the index-filter conjunct applied to a concrete
successful run. -/
theorem filters_sublist_witness :
    List.Sublist [specBlock 0] [specBlock 0] :=
  filters_sublist.2.1 [specBlock 0] (some 0) Option.none [specBlock 0] (by rfl)

/-- Claim C9: each filter is idempotent: reapplying it with identical
arguments to its own output returns that output unchanged (for the index
filter, whenever the first call returns rather than raising). -/
theorem filters_idempotent :
    (∀ blocks kw, filter_by_keyword (filter_by_keyword blocks kw) kw =
      filter_by_keyword blocks kw) ∧
    (∀ blocks s e res, filter_by_cell_index blocks s e = Except.ok res →
      filter_by_cell_index res s e = Except.ok res) ∧
    (∀ blocks t, filter_has_error (filter_has_error blocks t) t =
      filter_has_error blocks t) := by
  refine ⟨fun blocks kw => filter_idem .., fun blocks s e res h => ?_,
    fun blocks t => filter_idem ..⟩
  apply fbci_all_kept
  intro b hb
  exact ((fbci_ok_iff blocks s e res h b).mp hb).2

/-- Witness for claim C9: the index-filter conjunct applied to a concrete
successful run. -/
theorem filters_idempotent_witness :
    filter_by_cell_index [specBlock 0] (some 0) Option.none =
      Except.ok [specBlock 0] :=
  filters_idempotent.2.1 [specBlock 0] (some 0) Option.none [specBlock 0] (by rfl)

/-- Claim C10: every nonempty block produced by `format_cell` begins with a
newline, so its first line is the empty string; consequently
`filter_by_cell_index` applied to the blocks of `notebook_to_llm_blocks`
returns the empty list for every choice of bounds. -/
theorem format_cell_newline_defeats_index_filter :
    (∀ cell i, format_cell cell i = "" ∨
      strStartsWith "\n" (format_cell cell i) = true) ∧
    (∀ cell i, firstLine (format_cell cell i) = "") ∧
    (∀ cells s e, filter_by_cell_index (notebook_to_llm_blocks cells) s e =
      Except.ok []) := by
  refine ⟨?_, firstLine_format_cell, ?_⟩
  · intro cell i
    by_cases h1 : cell.cell_type = "markdown"
    · refine Or.inr ?_
      simp only [format_cell, h1, if_pos, String.append_assoc]
      exact strStartsWith_nl _
    · by_cases h2 : cell.cell_type = "code"
      · refine Or.inr ?_
        simp only [format_cell, h1, h2, if_false, if_pos, if_true, String.append_assoc]
        exact strStartsWith_nl _
      · refine Or.inl ?_
        simp [format_cell, h1, h2]
  · intro cells s e
    apply fbci_all_skip
    intro b hb
    rcases mem_notebook_blocks hb with ⟨c, j, rfl⟩
    exact hdrStartsCell_format_cell c j

end MCPNotebook

